import Mathlib

/-!
# Verification of the sharepoint-5s crawl and analysis engines

Shallow embedding of the core of the repository:

* the chunked, resumable crawl engine
  (`crawl-sharepoint` / `continue-crawl` edge functions:
  `processBatch`, `processFolder`, `updateScanProgress`, `finalizeCrawl`),
* the deterministic rules engine of the `analyze` edge function
  (rules 1 to 12 and the phase-3 deduplication), and
* the Microsoft Graph client `graphFetch` (429 backoff and retry).

Conventions of the embedding:

* Database rows are Lean structures; a scan is a `ScanState`; the remote
  tree is a function from a node identifier to the list of children
  (`Except String _`, an error models a thrown exception during expansion).
* JavaScript numbers that hold counts, sizes and epoch-millisecond
  timestamps are modelled as `Nat` (ages as `Int` where the source
  subtracts).  `Math.round(d / t * 100)` over floats is modelled exactly as
  round-half-up on rationals, i.e. `(200 * d + t) / (2 * t)` in `Nat`.
* Suggestion confidences are stored in hundredths (`85` models `0.85`).
* JavaScript string operations are re-implemented structurally over
  `List Char` so that every definition evaluates inside the kernel.
-/

/-! ## String utilities (models of the JS string operations used) -/

/-- ASCII lower-casing of a character, as `String.prototype.toLowerCase`
acts on the ASCII names handled here. -/
def lowerChar (c : Char) : Char :=
  if 'A' ≤ c ∧ c ≤ 'Z' then Char.ofNat (c.toNat + 32) else c

/-- Lower-case every character of a list. -/
def lowerList (cs : List Char) : List Char := cs.map lowerChar

/-- Lower-case a string (ASCII). -/
def lowerStr (s : String) : String := String.mk (lowerList s.data)

/-- `l₂` begins with `l₁`. -/
def listStarts : List Char → List Char → Bool
  | [], _ => true
  | _ :: _, [] => false
  | a :: l₁, b :: l₂ => a == b && listStarts l₁ l₂

/-- Model of `String.prototype.startsWith`. -/
def strStartsWith (s pre : String) : Bool := listStarts pre.data s.data

/-- Case-insensitive `startsWith`. -/
def strStartsWithCi (s pre : String) : Bool :=
  listStarts (lowerList pre.data) (lowerList s.data)

/-- `l₂` ends with `l₁`. -/
def listEnds (suf l : List Char) : Bool := listStarts suf.reverse l.reverse

/-- Case-insensitive `endsWith`. -/
def strEndsWithCi (s suf : String) : Bool :=
  listEnds (lowerList suf.data) (lowerList s.data)

/-- Case-insensitive string equality. -/
def strEqCi (s t : String) : Bool := lowerList s.data == lowerList t.data

/-- Model of `p.substring(0, p.lastIndexOf('/'))`: everything strictly
before the last slash; the empty string when no slash occurs (JS clamps
the `-1` of `lastIndexOf` to `0`). -/
def beforeLastSlash : List Char → List Char
  | [] => []
  | c :: rest => if rest.contains '/' then c :: beforeLastSlash rest else []

/-- Directory part of a path, as computed at rules 9, 11 and 12:
`path.substring(0, path.lastIndexOf('/'))`. -/
def parentPath (p : String) : String := String.mk (beforeLastSlash p.data)

/-- Word character of the JS `\w` class: letters, digits, underscore. -/
def isWordChar (c : Char) : Bool :=
  ('a' ≤ c ∧ c ≤ 'z') ∨ ('A' ≤ c ∧ c ≤ 'Z') ∨ ('0' ≤ c ∧ c ≤ '9') ∨ c = '_'

/-- Digit character (`\d`). -/
def isDigitChar (c : Char) : Bool := '0' ≤ c ∧ c ≤ '9'

/-- Whitespace character of the JS `\s` class (the forms that occur in
file names). -/
def isWsChar (c : Char) : Bool := c = ' ' ∨ c = '\t' ∨ c = '\n' ∨ c = '\r'

/-- Separator class `[_\s-]` used by the naming-convention patterns. -/
def isSepChar (c : Char) : Bool := c = '_' ∨ c = '-' ∨ isWsChar c

/-- Model of the rule 3 and 4 extension strip `name.replace` with the
pattern `\.\w+$` and an empty replacement, on a character list: drop a
final dot followed by one or more word characters, when present. -/
def stripExtList (cs : List Char) : List Char :=
  let r := cs.reverse
  let w := r.takeWhile isWordChar
  if w.isEmpty then cs
  else
    match r.drop w.length with
    | '.' :: rest => rest.reverse
    | _ => cs

/-- Model of the extension strip on a string. -/
def stripExt (s : String) : String := String.mk (stripExtList s.data)

/-- Drop every trailing separator: the `replace` with pattern `[_\s-]+$`
and an empty replacement. -/
def dropTrailingSep (cs : List Char) : List Char :=
  ((cs.reverse).dropWhile isSepChar).reverse

/-- Helper of `wsRunsToHyphen`; the flag records whether the scan is
inside a whitespace run whose replacement hyphen was already emitted. -/
def wsToHyphenAux : Bool → List Char → List Char
  | _, [] => []
  | inRun, c :: rest =>
    if isWsChar c then
      if inRun then wsToHyphenAux true rest else '-' :: wsToHyphenAux true rest
    else c :: wsToHyphenAux false rest

/-- Model of `replace(/\s+/g, '-')`: each maximal run of whitespace
becomes a single hyphen. -/
def wsRunsToHyphen (cs : List Char) : List Char := wsToHyphenAux false cs

/-- Helper of `collapseWsRuns`; the flag records whether the scan is
inside a run of two or more whitespace characters whose single
replacement space was already emitted. -/
def collapseWsAux : Bool → List Char → List Char
  | _, [] => []
  | true, c :: rest =>
    if isWsChar c then collapseWsAux true rest else c :: collapseWsAux false rest
  | false, c :: rest =>
    if isWsChar c then
      if isWsChar (rest.headD 'x') then ' ' :: collapseWsAux true rest
      else c :: collapseWsAux false rest
    else c :: collapseWsAux false rest

/-- Model of `replace(/\s{2,}/g, ' ')`: each maximal run of two or more
whitespace characters becomes one space; a lone whitespace character is
kept as it is. -/
def collapseWsRuns (cs : List Char) : List Char := collapseWsAux false cs

/-- Model of `String.prototype.trim` (over the `\s` forms above). -/
def trimWs (cs : List Char) : List Char :=
  ((cs.dropWhile isWsChar).reverse.dropWhile isWsChar).reverse

/-- Generic stable insertion preserving encounter order among ties. -/
def insBy {α : Type} (lt : α → α → Bool) (a : α) : List α → List α
  | [] => [a]
  | b :: l => if lt b a then b :: insBy lt a l else a :: b :: l

/-- Generic stable sort by a strict precedence predicate (the stable
`Array.prototype.sort` with a consistent comparator, and the
deterministic model of the ordered store queries). -/
def sortBy {α : Type} (lt : α → α → Bool) : List α → List α
  | [] => []
  | a :: l => insBy lt a (sortBy lt l)

/-! ## Crawl engine data model

Embedding of the queue-backed crawl of `crawl-sharepoint` (queue version)
and `continue-crawl`: rows of `crawl_queue` and `crawled_files`, the
crawl-relevant columns of `scans`, and the remote tree reachable through
`graphFetchAllPages`. -/

/-- `crawl_queue.status`. -/
inductive QStatus : Type
  | pending | processing | done | error
  deriving DecidableEq

/-- `scans.status` (crawl-relevant values). -/
inductive ScanStatus : Type
  | crawling | crawled | analyzing | complete | error
  deriving DecidableEq

/-- One child returned by the Graph API for a folder listing: the fields
the crawl reads (`id`, `name`, `folder` presence, `size`). -/
structure RemoteItem where
  rid : Nat
  name : String
  isFolder : Bool
  size : Nat
  deriving DecidableEq

/-- The remote tree: a node identifier maps to the full child listing
of `graphFetchAllPages`, or to a thrown error message when the
expansion of that folder fails. -/
def RemoteTree : Type := Nat → Except String (List RemoteItem)

/-- A `crawl_queue` row.  `createdAt` is the insertion timestamp in epoch
milliseconds; the stale-item reclaim of `crawl-sharepoint` filters on it
(`lt(created_at, twoMinutesAgo)`).  `processed_at` is written by the
source but read by none of the modelled code, so it is omitted. -/
structure QueueItem where
  qid : Nat
  nodeId : Nat
  depth : Nat
  folderPath : String
  status : QStatus
  errorMessage : Option String
  createdAt : Nat
  deriving DecidableEq

/-- A `crawled_files` row (the columns the claims mention). -/
structure InvRow where
  name : String
  isFolder : Bool
  sizeBytes : Nat
  path : String
  depth : Nat
  deriving DecidableEq

/-- The crawl-relevant columns of one `scans` row, together with the
queue and inventory rows owned by the scan.  `nextQid` models the
identifier sequence of the store for newly inserted queue rows. -/
structure ScanState where
  queue : List QueueItem
  inventory : List InvRow
  totalFiles : Nat
  totalFolders : Nat
  totalSizeBytes : Nat
  crawlProgress : Nat
  status : ScanStatus
  errorMessage : Option String
  nextQid : Nat
  deriving DecidableEq

/-- Counters accumulated over one batch (`totalFilesAdded`,
`totalFoldersAdded`, `totalSizeAdded`). -/
structure BatchCounters where
  files : Nat
  folders : Nat
  size : Nat
  deriving DecidableEq

/-! ## Crawl engine operations -/

/-- The inventory row built for one discovered child
(`fileRows.push({...})` in `processFolder`): the accumulated path gets a
trailing slash for folders, and the recorded depth is
`queueItem.depth + (isFolder ? 1 : 0)`. -/
def childRow (q : QueueItem) (it : RemoteItem) : InvRow :=
  { name := it.name
    isFolder := it.isFolder
    sizeBytes := it.size
    path := q.folderPath ++ it.name ++ (if it.isFolder then "/" else "")
    depth := q.depth + (if it.isFolder then 1 else 0) }

/-- The queue row built for one discovered subfolder
(`newQueueItems.push({...})` in `processFolder`): depth `queueItem.depth + 1`,
status `pending`. -/
def childQueueItem (q : QueueItem) (it : RemoteItem) (qid now : Nat) : QueueItem :=
  { qid := qid
    nodeId := it.rid
    depth := q.depth + 1
    folderPath := q.folderPath ++ it.name ++ "/"
    status := QStatus.pending
    errorMessage := none
    createdAt := now }

/-- Queue rows for the discovered subfolders, with store-assigned
identifiers `baseQid, baseQid + 1, ...`. -/
def assignQueueItems (q : QueueItem) (now : Nat) : Nat → List RemoteItem → List QueueItem
  | _, [] => []
  | baseQid, it :: rest =>
    childQueueItem q it baseQid now :: assignQueueItems q now (baseQid + 1) rest

/-- Result of expanding one queue item. -/
structure FolderResult where
  rows : List InvRow
  newItems : List QueueItem
  counters : BatchCounters
  deriving DecidableEq

/-- Embedding of `processFolder`: list the children of the queue item
through the remote tree, build an inventory row per child, a new pending
queue row per child folder, and accumulate file/folder/byte counters.
A failure of the listing is the thrown error captured by the caller. -/
def processFolder (tree : RemoteTree) (now baseQid : Nat) (q : QueueItem) :
    Except String FolderResult :=
  match tree q.nodeId with
  | Except.error msg => Except.error msg
  | Except.ok children =>
    let folders := children.filter (fun it => it.isFolder)
    let plainFiles := children.filter (fun it => !it.isFolder)
    Except.ok
      { rows := children.map (childRow q)
        newItems := assignQueueItems q now baseQid folders
        counters :=
          { files := plainFiles.length
            folders := folders.length
            size := (plainFiles.map (fun it => it.size)).sum } }

/-- Set the status (and error message) of the queue row with the given
identifier. -/
def markQueue (queue : List QueueItem) (qid : Nat) (st : QStatus)
    (msg : Option String) : List QueueItem :=
  queue.map (fun q =>
    if q.qid = qid then { q with status := st, errorMessage := msg } else q)

/-- Count the queue rows of the scan in a given status
(the exact-count queries). -/
def countStatus (queue : List QueueItem) (st : QStatus) : Nat :=
  (queue.filter (fun q => q.status = st)).length

/-- The batch query ordering `order(depth).order(created_at)`
(ascending depth, then ascending creation time). -/
def batchLt (a b : QueueItem) : Bool :=
  a.depth < b.depth || (a.depth = b.depth && a.createdAt < b.createdAt)

/-- The batch selection: pending rows of the scan, ordered by ascending
depth then ascending creation time, limited to the batch size. -/
def selectBatch (batchSize : Nat) (queue : List QueueItem) : List QueueItem :=
  (sortBy batchLt (queue.filter (fun q => q.status = QStatus.pending))).take batchSize

/-- `min(Math.round(doneCount / totalCount * 100), 99)`, and `0` for an
empty queue; round-half-up is computed exactly over the naturals. -/
def progressFormula (done total : Nat) : Nat :=
  if total = 0 then 0 else min ((200 * done + total) / (2 * total)) 99

/-- Embedding of `updateScanProgress`: add the batch counters to the
running totals and recompute the clamped progress percentage from the
queue-row counts. -/
def updateScanProgress (s : ScanState) (c : BatchCounters) : ScanState :=
  { s with
    crawlProgress := progressFormula (countStatus s.queue QStatus.done) s.queue.length
    totalFiles := s.totalFiles + c.files
    totalFolders := s.totalFolders + c.folders
    totalSizeBytes := s.totalSizeBytes + c.size }

/-- The first recorded error message among the queue rows
(`limit(1).single()` on status `error`), with the fallback literal of the
source. -/
def firstErrorMessage (queue : List QueueItem) : String :=
  match (queue.find? (fun q => q.status = QStatus.error)).bind (fun q => q.errorMessage) with
  | some m => m
  | none => "All folders failed to process"

/-- Exact totals recomputed from the inventory rows: the
`for (const file of fileCounts)` loop of `finalizeCrawl`. -/
def invTotals (inv : List InvRow) : BatchCounters :=
  inv.foldl
    (fun acc r =>
      if r.isFolder then { acc with folders := acc.folders + 1 }
      else { acc with files := acc.files + 1, size := acc.size + r.sizeBytes })
    { files := 0, folders := 0, size := 0 }

/-- Embedding of `finalizeCrawl`: if no queue row reached `done` and at
least one reached `error`, the scan fails with the first recorded error
message; otherwise the totals are recomputed exactly from the inventory
rows and the scan becomes `crawled` with progress `100`. -/
def finalizeCrawl (s : ScanState) : ScanState :=
  if countStatus s.queue QStatus.done = 0 ∧ 0 < countStatus s.queue QStatus.error then
    { s with status := ScanStatus.error, errorMessage := some (firstErrorMessage s.queue) }
  else
    let t := invTotals s.inventory
    { s with
      status := ScanStatus.crawled
      crawlProgress := 100
      totalFiles := t.files
      totalFolders := t.folders
      totalSizeBytes := t.size }

/-- Expand one snapshot item inside the batch loop: on success insert the
inventory rows, append the discovered queue rows and mark the item
`done`; on a thrown error mark it `error` with the captured message. -/
def runOne (tree : RemoteTree) (now : Nat) (acc : ScanState × BatchCounters)
    (item : QueueItem) : ScanState × BatchCounters :=
  let s := acc.1
  let c := acc.2
  match processFolder tree now s.nextQid item with
  | Except.ok res =>
    ({ s with
        inventory := s.inventory ++ res.rows
        queue := markQueue s.queue item.qid QStatus.done item.errorMessage ++ res.newItems
        nextQid := s.nextQid + res.newItems.length },
     { files := c.files + res.counters.files
       folders := c.folders + res.counters.folders
       size := c.size + res.counters.size })
  | Except.error msg =>
    ({ s with queue := markQueue s.queue item.qid QStatus.error (some msg) }, c)

/-- The shared core of both `processBatch` variants once a non-empty
batch was selected: mark the snapshot `processing`, expand each item,
update the progress counters, and finalize when no pending row remains. -/
def expandBatch (tree : RemoteTree) (now : Nat) (s : ScanState)
    (selected : List QueueItem) : ScanState :=
  let marked :=
    { s with
      queue := s.queue.map (fun q =>
        if (selected.map (fun i => i.qid)).contains q.qid then
          { q with status := QStatus.processing }
        else q) }
  let run := selected.foldl (runOne tree now) (marked, { files := 0, folders := 0, size := 0 })
  let s2 := updateScanProgress run.1 run.2
  if countStatus s2.queue QStatus.pending = 0 then finalizeCrawl s2 else s2

/-- Embedding of `processBatch` of `continue-crawl` (`part_002`): no
stale-item reclaim; with no pending row it finalizes only when the queue
was already seeded (a fully empty queue returns unchanged). -/
def processBatchContinue (tree : RemoteTree) (now : Nat) (s : ScanState) : ScanState :=
  let selected := selectBatch 50 s.queue
  if selected.isEmpty then
    if s.queue.isEmpty then s else finalizeCrawl s
  else expandBatch tree now s selected

/-- The stale-item reclaim of `crawl-sharepoint`: every row in status
`processing` whose `created_at` lies more than two minutes in the past is
set back to `pending` (`Nat` subtraction mirrors the negative-threshold
comparison of the source when `now` is small). -/
def reclaimStale (now : Nat) (queue : List QueueItem) : List QueueItem :=
  queue.map (fun q =>
    if q.status = QStatus.processing ∧ q.createdAt < now - 2 * 60 * 1000 then
      { q with status := QStatus.pending }
    else q)

/-- Embedding of `processBatch` of `crawl-sharepoint` (`part_003`, queue
version): reclaim stale `processing` rows first, then select and expand a
batch; with no pending row it finalizes unconditionally. -/
def processBatchCrawl (tree : RemoteTree) (now : Nat) (batchSize : Nat)
    (s : ScanState) : ScanState :=
  let s0 := { s with queue := reclaimStale now s.queue }
  let selected := selectBatch batchSize s0.queue
  if selected.isEmpty then finalizeCrawl s0
  else expandBatch tree now s0 selected

/-! ## Rules engine data model (`analyze` edge function) -/

/-- `suggestions.category`. -/
inductive SgCategory : Type
  | delete | archive | rename | struct
  deriving DecidableEq

/-- `suggestions.severity`. -/
inductive SgSeverity : Type
  | low | medium | high | critical
  deriving DecidableEq

/-- Template rendering of a category into the dedup key string. -/
def categoryStr : SgCategory → String
  | SgCategory.delete => "delete"
  | SgCategory.archive => "archive"
  | SgCategory.rename => "rename"
  | SgCategory.struct => "structure"

/-- A `crawled_files` row as read by the rules engine (the columns the
rules touch).  `id` is the store-assigned row identifier; `modifiedAt`
is `modified_at_sp` as epoch milliseconds, `none` for a null column. -/
structure FileRow where
  id : String
  name : String
  fileExtension : Option String
  sizeBytes : Nat
  isFolder : Bool
  path : String
  depth : Nat
  modifiedAt : Option Nat
  deriving DecidableEq

/-- A suggestion draft as pushed by the rules engine.  `confidence` is in
hundredths (`85` models `0.85`). -/
structure Sugg where
  fileId : Option String
  category : SgCategory
  severity : SgSeverity
  title : String
  description : String
  currentValue : String
  suggestedValue : Option String
  confidence : Nat
  deriving DecidableEq

/-! ### Pattern matchers

Each JS regular expression used by rules 2 to 6 is translated into a
matcher over `List Char`.  A matcher returns the length of the (greedy)
match starting at the head of the list, or `none`.  `scanFirst` finds the
leftmost match, giving the JS `test` / first-match `replace` semantics. -/

/-- Leftmost match of a matcher: start index and length. -/
def scanFirst (m : List Char → Option Nat) : List Char → Option (Nat × Nat)
  | [] => none
  | c :: rest =>
    match m (c :: rest) with
    | some len => some (0, len)
    | none => (scanFirst m rest).map (fun p => (p.1 + 1, p.2))

/-- JS `regex.test`: some position matches. -/
def testPat (m : List Char → Option Nat) (cs : List Char) : Bool :=
  (scanFirst m cs).isSome

/-- JS non-global `replace` with an empty replacement: remove the
leftmost match. -/
def replaceFirst (m : List Char → Option Nat) (cs : List Char) : List Char :=
  match scanFirst m cs with
  | none => cs
  | some (i, len) => cs.take i ++ cs.drop (i + len)

/-- Case-insensitive literal word at the head of the list. -/
def ciWordAt : List Char → List Char → Option Nat
  | [], _ => some 0
  | _ :: _, [] => none
  | w :: ws, c :: cs =>
    if lowerChar c = w then (ciWordAt ws cs).map (fun n => n + 1) else none

/-- Matcher combinator: a separator `[_\s-]`, then a case-insensitive
word, then at least `minDigits` digits (greedy), then optionally the end
anchor `$`. -/
def sepWordDigits (w : List Char) (wantDigits : Bool) (minOneDigit : Bool)
    (anchored : Bool) (cs : List Char) : Option Nat :=
  match cs with
  | [] => none
  | c :: rest =>
    if isSepChar c then
      match ciWordAt w rest with
      | none => none
      | some wl =>
        let after := rest.drop wl
        let ds := if wantDigits then after.takeWhile isDigitChar else []
        if minOneDigit ∧ ds.isEmpty then none
        else
          let len := 1 + wl + ds.length
          if anchored ∧ ¬(after.drop ds.length).isEmpty then none else some len
    else none

/-- `/[_\s-]final[_\s-]?v?\d*/i`: separator, `final`, optional separator,
optional `v`, then greedy digits. -/
def matchFinalV (cs : List Char) : Option Nat :=
  match cs with
  | [] => none
  | c :: rest =>
    if isSepChar c then
      match ciWordAt ['f','i','n','a','l'] rest with
      | none => none
      | some wl =>
        let a1 := rest.drop wl
        let s1 := if (a1.headD 'x') |> isSepChar then 1 else 0
        let a2 := a1.drop s1
        let v1 := if lowerChar (a2.headD 'x') = 'v' ∧ ¬a2.isEmpty then 1 else 0
        let a3 := a2.drop v1
        let ds := a3.takeWhile isDigitChar
        some (1 + wl + s1 + v1 + ds.length)
    else none

/-- `/\(\d+\)(?:\.\w+)?$/` tested on a reversed list: optional extension
(word characters then a dot), then `)`, one or more digits, `(`, all
anchored at the original end. -/
def parenNumRev (rev : List Char) : Bool :=
  let core : List Char → Bool := fun r =>
    match r with
    | ')' :: rest =>
      let ds := rest.takeWhile isDigitChar
      ¬ds.isEmpty ∧ (rest.drop ds.length).headD 'x' = '('
    | _ => false
  let w := rev.takeWhile isWordChar
  core rev ∨ (¬w.isEmpty ∧ (rev.drop w.length).headD 'x' = '.' ∧
    core ((rev.drop w.length).drop 1))

/-- `/[_\s-]copy(?:\s?\d+)?$/i` tested on a reversed list. -/
def copySuffixRev (rev : List Char) : Bool :=
  let copySep : List Char → Bool := fun r =>
    match r with
    | 'y' :: 'p' :: 'o' :: 'c' :: s :: _ => isSepChar s
    | _ => false
  let low := lowerList rev
  let ds := low.takeWhile isDigitChar
  copySep low ∨
    (¬ds.isEmpty ∧
      (copySep (low.drop ds.length) ∨
        (isWsChar ((low.drop ds.length).headD 'x') ∧ copySep (low.drop (ds.length + 1)))))

/-- `[_\s-]word$` as a reversed-suffix test (used by the anchored backup
patterns). -/
def sepWordSuffix (wRev : List Char) (s : String) : Bool :=
  let low := lowerList s.data.reverse
  listStarts wRev low ∧ isSepChar ((low.drop wRev.length).headD 'x')

/-- `BACKUP_PATTERNS.some(p => p.test(s))`. -/
def backupTest (s : String) : Bool :=
  sepWordSuffix ['p','u','k','c','a','b'] s ∨
  sepWordSuffix ['k','a','b'] s ∨
  sepWordSuffix ['d','l','o'] s ∨
  strStartsWithCi s "Copy of " ∨
  parenNumRev s.data.reverse ∨
  copySuffixRev s.data.reverse

/-- The `VERSION_SUFFIX_PATTERNS` list, in source order, as matchers. -/
def versionMatchers : List (List Char → Option Nat) :=
  [ sepWordDigits ['v'] true true false
  , sepWordDigits ['v','e','r'] true true false
  , sepWordDigits ['f','i','n','a','l'] false false false
  , matchFinalV
  , sepWordDigits ['d','r','a','f','t'] false false false
  , sepWordDigits ['r','e','v'] true false false
  , sepWordDigits ['e','d','i','t','e','d'] false false false
  , sepWordDigits ['u','p','d','a','t','e','d'] false false false
  , sepWordDigits ['n','e','w'] false false true
  , sepWordDigits ['l','a','t','e','s','t'] false false true ]

/-- `VERSION_SUFFIX_PATTERNS.some(p => p.test(nameWithoutExt))`. -/
def versionTest (cs : List Char) : Bool :=
  versionMatchers.any (fun m => testPat m cs)

/-- The clean-name loop of rule 4: remove the first match of every
version pattern in order, then trim trailing separators. -/
def versionCleanName (cs : List Char) : List Char :=
  dropTrailingSep (versionMatchers.foldl (fun acc m => replaceFirst m acc) cs)

/-- The disallowed special characters of rule 6
in the source a character class holding hash, percent, ampersand,
braces, backslash, angle brackets, star, question mark, slash, dollar,
bang, apostrophe, double quote, colon, at sign, plus, backtick, pipe and
equals; the characters awkward to quote are written by code point. -/
def specialChars : List Char :=
  ['#', '%', '&', Char.ofNat 123, Char.ofNat 125, Char.ofNat 92, '<', '>',
   '*', '?', '/', '$', '!', Char.ofNat 39, Char.ofNat 34, ':', '@', '+',
   Char.ofNat 96, '|', '=']

/-- `SPECIAL_CHAR_PATTERN.test(name)`. -/
def hasSpecialChar (s : String) : Bool := s.data.any (fun c => specialChars.contains c)

/-- `ALL_CAPS_PATTERN = /^[A-Z0-9_\s-]{8,}\.\w+$/`: at least eight
characters of the upper-case class, a dot, then one or more word
characters to the end. -/
def allCapsTest (s : String) : Bool :=
  let pre := s.data.takeWhile (fun c => c ≠ '.')
  let post := s.data.drop (pre.length + 1)
  8 ≤ pre.length ∧
    pre.all (fun c => ('A' ≤ c ∧ c ≤ 'Z') ∨ isDigitChar c ∨ c = '_' ∨ c = '-' ∨ isWsChar c) ∧
    (s.data.drop pre.length).headD 'x' = '.' ∧
    ¬post.isEmpty ∧ post.all isWordChar

/-- The temp / system-file patterns of rule 2. -/
def tempTest (name : String) : Bool :=
  strStartsWith name "~$" ∨
  strEndsWithCi name ".tmp" ∨
  strEqCi name "Thumbs.db" ∨
  strEqCi name ".DS_Store" ∨
  strEqCi name "desktop.ini" ∨
  strEqCi name ".gitkeep" ∨
  strStartsWith name "~lock."

/-- The archive-extension alternation of rule 9
(`/\.(zip|rar|7z|tar\.gz|tgz)$/i`). -/
def isArchiveName (name : String) : Bool :=
  strEndsWithCi name ".zip" ∨ strEndsWithCi name ".rar" ∨
  strEndsWithCi name ".7z" ∨ strEndsWithCi name ".tar.gz" ∨
  strEndsWithCi name ".tgz"

/-- The rule 9 base name: `zip.name.replace` of the archive-extension
pattern with an empty replacement
of an archive (the leftmost match strips `.tar.gz` as a whole). -/
def stripArchiveExt (name : String) : String :=
  if strEndsWithCi name ".tar.gz" then String.mk (name.data.take (name.data.length - 7))
  else if strEndsWithCi name ".zip" ∨ strEndsWithCi name ".rar" ∨ strEndsWithCi name ".tgz" then
    String.mk (name.data.take (name.data.length - 4))
  else if strEndsWithCi name ".7z" then String.mk (name.data.take (name.data.length - 3))
  else name


/-! ## The twelve deterministic rules -/

/-- `4 * 365.25 * 24 * 60 * 60 * 1000` milliseconds. -/
def FOUR_YEARS_MS : Nat := 126230400000

/-- `2 * 365.25 * 24 * 60 * 60 * 1000` milliseconds. -/
def TWO_YEARS_MS : Nat := 63115200000

/-- The extension suffix appended to a suggested name:
`file.file_extension` rendered as a dot plus the extension when the
column is a non-empty string, the empty string otherwise. -/
def extSuffix (f : FileRow) : String :=
  match f.fileExtension with
  | some e => if e = "" then "" else "." ++ e
  | none => ""

/-- Rule 1: zero-byte files. -/
def rule1 (files : List FileRow) : List Sugg :=
  files.filterMap (fun f =>
    if ¬f.isFolder ∧ f.sizeBytes = 0 then
      some
        { fileId := some f.id
          category := SgCategory.delete
          severity := SgSeverity.high
          title := "Empty file"
          description := "This file is 0 bytes. It may be a failed upload or an accidentally created empty file."
          currentValue := f.path
          suggestedValue := none
          confidence := 95 }
    else none)

/-- Rule 2: temp / system files. -/
def rule2 (files : List FileRow) : List Sugg :=
  files.filterMap (fun f =>
    if ¬f.isFolder ∧ tempTest f.name then
      some
        { fileId := some f.id
          category := SgCategory.delete
          severity := SgSeverity.critical
          title := "Temporary file"
          description := "System/temporary file that should not be in a document library."
          currentValue := f.path
          suggestedValue := none
          confidence := 100 }
    else none)

/-- Rule 3: backup / copy pattern files
(`p.test(nameWithoutExt) || p.test(file.name)`). -/
def rule3 (files : List FileRow) : List Sugg :=
  files.filterMap (fun f =>
    if ¬f.isFolder ∧ (backupTest (stripExt f.name) ∨ backupTest f.name) then
      some
        { fileId := some f.id
          category := SgCategory.delete
          severity := SgSeverity.high
          title := "Backup/copy file"
          description := "Filename \"" ++ f.name ++ "\" matches a backup or copy pattern. If the original exists, this duplicate can likely be removed."
          currentValue := f.path
          suggestedValue := none
          confidence := 80 }
    else none)

/-- Rule 4: version suffix in the filename; the suggested value is the
name with the first match of every pattern removed and trailing
separators trimmed, plus the stored extension. -/
def rule4 (files : List FileRow) : List Sugg :=
  files.filterMap (fun f =>
    if ¬f.isFolder ∧ versionTest (stripExtList f.name.data) then
      some
        { fileId := some f.id
          category := SgCategory.rename
          severity := SgSeverity.medium
          title := "Version suffix in filename"
          description := "\"" ++ f.name ++ "\" has version indicators in the name. Use SharePoint\x27s built-in versioning instead."
          currentValue := f.path
          suggestedValue := some (String.mk (versionCleanName (stripExtList f.name.data)) ++ extSuffix f)
          confidence := 75 }
    else none)

/-- Rule 5: ALL CAPS filenames; the suggested value lower-cases the
extension-stripped name and turns whitespace runs into hyphens. -/
def rule5 (files : List FileRow) : List Sugg :=
  files.filterMap (fun f =>
    if ¬f.isFolder ∧ allCapsTest f.name then
      some
        { fileId := some f.id
          category := SgCategory.rename
          severity := SgSeverity.low
          title := "ALL CAPS filename"
          description := "\"" ++ f.name ++ "\" is in ALL CAPS. Consider using standard casing for consistency."
          currentValue := f.path
          suggestedValue := some (String.mk (wsRunsToHyphen (lowerList (stripExtList f.name.data))) ++ extSuffix f)
          confidence := 70 }
    else none)

/-- Rule 6: special characters in the filename; the suggested value
strips them, collapses whitespace runs of length two or more, and trims. -/
def rule6 (files : List FileRow) : List Sugg :=
  files.filterMap (fun f =>
    if ¬f.isFolder ∧ hasSpecialChar f.name then
      some
        { fileId := some f.id
          category := SgCategory.rename
          severity := SgSeverity.medium
          title := "Special characters in filename"
          description := "\"" ++ f.name ++ "\" contains special characters that can cause issues with syncing, URLs, or cross-platform access."
          currentValue := f.path
          suggestedValue := some (String.mk (trimWs (collapseWsRuns
            (f.name.data.filter (fun c => ¬specialChars.contains c)))))
          confidence := 85 }
    else none)

/-- Rule 7: very old (> 4 years) and stale (2 to 4 years) files, judged
on `now - modified` and skipped for a null `modified_at_sp`.  `fmtDate`
abstracts the locale-dependent `toLocaleDateString` rendering, which no
claim depends on. -/
def rule7 (now : Nat) (fmtDate : Nat → String) (files : List FileRow) : List Sugg :=
  files.filterMap (fun f =>
    if f.isFolder then none
    else
      match f.modifiedAt with
      | none => none
      | some m =>
        if (FOUR_YEARS_MS : Int) < (now : Int) - (m : Int) then
          some
            { fileId := some f.id
              category := SgCategory.delete
              severity := SgSeverity.medium
              title := "Very old file"
              description := "Not modified since " ++ fmtDate m ++ ". Consider whether this is still needed."
              currentValue := f.path
              suggestedValue := none
              confidence := 60 }
        else if (TWO_YEARS_MS : Int) < (now : Int) - (m : Int) then
          some
            { fileId := some f.id
              category := SgCategory.archive
              severity := SgSeverity.medium
              title := "Stale file"
              description := "Not modified since " ++ fmtDate m ++ ". Consider archiving to cold storage."
              currentValue := f.path
              suggestedValue := none
              confidence := 65 }
        else none)

/-! ### Rule 8: duplicate detection -/

/-- First-occurrence deduplication of a key list: the iteration order of
the `filesByNameSize` map. -/
def dedupStringsAux (seen : List String) : List String → List String
  | [] => []
  | k :: rest =>
    if seen.contains k then dedupStringsAux seen rest
    else k :: dedupStringsAux (k :: seen) rest

/-- Keys of the map in insertion order. -/
def dedupStrings (l : List String) : List String := dedupStringsAux [] l

/-- The grouping key ```${file.name.toLowerCase()}::${file.size_bytes}` ``. -/
def dupKey (f : FileRow) : String := lowerStr f.name ++ "::" ++ Nat.repr f.sizeBytes

/-- Non-folder rows of the inventory. -/
def nonFolders (files : List FileRow) : List FileRow :=
  files.filter (fun f => !f.isFolder)

/-- The group stored under one key of `filesByNameSize`, in pushed
(encounter) order. -/
def dupGroup (files : List FileRow) (k : String) : List FileRow :=
  (nonFolders files).filter (fun f => dupKey f = k)

/-- The map keys in insertion order. -/
def dupKeys (files : List FileRow) : List String :=
  dedupStrings ((nonFolders files).map dupKey)

/-- The rule 8 comparator
`(a, b) => new Date(b.modified_at_sp || 0) - new Date(a.modified_at_sp || 0)`:
`a` precedes `b` exactly when `a` was modified strictly later. -/
def newerThan (a b : FileRow) : Bool := (b.modifiedAt.getD 0) < (a.modifiedAt.getD 0)

/-- The duplicate suggestion for `f`, referencing the newest member of
the group. -/
def mkDupSugg (newest f : FileRow) : Sugg :=
  { fileId := some f.id
    category := SgCategory.delete
    severity := SgSeverity.high
    title := "Duplicate file"
    description := "This file appears to be a duplicate of \"" ++ newest.path ++ "\" (same name and size). The copy at \"" ++ newest.path ++ "\" was more recently modified."
    currentValue := f.path
    suggestedValue := none
    confidence := 85 }

/-- The `for (let i = 1; ...)` emission over one sorted group. -/
def emitDupGroup : List FileRow → List Sugg
  | [] => []
  | newest :: rest => rest.map (mkDupSugg newest)

/-- Suggestions generated for the group of one key (groups of fewer than
two members are skipped). -/
def emitForKey (files : List FileRow) (k : String) : List Sugg :=
  let g := dupGroup files k
  if g.length < 2 then [] else emitDupGroup (sortBy newerThan g)

/-- Rule 8: duplicate detection over identical (lowercased name, size). -/
def rule8 (files : List FileRow) : List Sugg :=
  (dupKeys files).flatMap (emitForKey files)

/-! ### Rules 9 to 12 -/

/-- The folder lookup of rule 9:
`files.find(f => f.is_folder && f.name.toLowerCase() === zipBaseName.toLowerCase() && f.path.startsWith(zipDir))`. -/
def rule9Check (files : List FileRow) (zip : FileRow) : Option FileRow :=
  files.find? (fun f =>
    f.isFolder && strEqCi f.name (stripArchiveExt zip.name) &&
      strStartsWith f.path (parentPath zip.path))

/-- The rule 9 suggestion for an archive and its matched folder. -/
def mkRule9Sugg (zip fol : FileRow) : Sugg :=
  { fileId := some zip.id
    category := SgCategory.delete
    severity := SgSeverity.medium
    title := "Archive with extracted contents"
    description := "\"" ++ zip.name ++ "\" appears to have been extracted into folder \"" ++ fol.name ++ "\" nearby. The archive is likely no longer needed."
    currentValue := zip.path
    suggestedValue := none
    confidence := 75 }

/-- Rule 9: archive files with extracted contents nearby. -/
def rule9 (files : List FileRow) : List Sugg :=
  (files.filter (fun f => !f.isFolder && isArchiveName f.name)).filterMap
    (fun zip => (rule9Check files zip).map (mkRule9Sugg zip))

/-- Rule 10: deeply nested folders (depth > 4). -/
def rule10 (files : List FileRow) : List Sugg :=
  files.filterMap (fun f =>
    if f.isFolder ∧ 4 < f.depth then
      some
        { fileId := some f.id
          category := SgCategory.struct
          severity := SgSeverity.high
          title := "Deeply nested folder"
          description := "This folder is " ++ Nat.repr f.depth ++ " levels deep. Consider flattening the folder structure for easier navigation."
          currentValue := f.path
          suggestedValue := none
          confidence := 80 }
    else none)

/-- The `folderChildCounts` lookup of rule 11: how many non-folder rows
have `path.substring(0, path.lastIndexOf('/'))` equal to the given key. -/
def fileChildCount (files : List FileRow) (p : String) : Nat :=
  ((nonFolders files).filter (fun f => parentPath f.path = p)).length

/-- Rule 11: sparse folders (1 to 2 direct file children, depth > 1),
looked up under the folder path itself. -/
def rule11 (files : List FileRow) : List Sugg :=
  files.filterMap (fun folder =>
    if folder.isFolder then
      let c := fileChildCount files folder.path
      if 0 < c ∧ c ≤ 2 ∧ 1 < folder.depth then
        some
          { fileId := some folder.id
            category := SgCategory.struct
            severity := SgSeverity.medium
            title := "Sparse folder"
            description := "This folder contains only " ++ Nat.repr c ++ " file" ++ (if c = 1 then "" else "s") ++ ". Consider merging its contents into the parent folder to simplify navigation."
            currentValue := folder.path
            suggestedValue := none
            confidence := 70 }
      else none
    else none)

/-- The `folderDirectChildren` lookup of rule 12: how many rows of any
kind have `path.substring(0, path.lastIndexOf('/'))` equal to the key. -/
def directChildCount (files : List FileRow) (p : String) : Nat :=
  (files.filter (fun f => parentPath f.path = p)).length

/-- Rule 12: overcrowded folders (at least 50 direct children), looked
up under the folder path itself. -/
def rule12 (files : List FileRow) : List Sugg :=
  files.filterMap (fun folder =>
    if folder.isFolder then
      let c := directChildCount files folder.path
      if 50 ≤ c then
        some
          { fileId := some folder.id
            category := SgCategory.struct
            severity := SgSeverity.medium
            title := "Overcrowded folder"
            description := "This folder has " ++ Nat.repr c ++ " direct children. Consider organizing into subfolders by type, date, or project to improve discoverability."
            currentValue := folder.path
            suggestedValue := none
            confidence := 75 }
      else none
    else none)

/-- Phase 1 of `analyze`: the twelve rules run in order, each appending
its suggestions to the draft list. -/
def rulesSuggestions (now : Nat) (fmtDate : Nat → String) (files : List FileRow) : List Sugg :=
  rule1 files ++ rule2 files ++ rule3 files ++ rule4 files ++ rule5 files ++
  rule6 files ++ rule7 now fmtDate files ++ rule8 files ++ rule9 files ++
  rule10 files ++ rule11 files ++ rule12 files

/-! ### Phase 3: deduplication -/

/-- The composite dedup key
```${s.file_id || s.current_value}::${s.category}::${s.title}` `` (a null
or empty `file_id` falls back to the current path). -/
def dedupKeyOf (s : Sugg) : String :=
  (match s.fileId with
   | some i => if i = "" then s.currentValue else i
   | none => s.currentValue) ++ "::" ++ categoryStr s.category ++ "::" ++ s.title

/-- The `suggestions.filter` loop with its `seen` set: the first
occurrence of a key wins, later duplicates are dropped. -/
def dedupeAux (seen : List String) : List Sugg → List Sugg
  | [] => []
  | s :: rest =>
    if seen.contains (dedupKeyOf s) then dedupeAux seen rest
    else s :: dedupeAux (dedupKeyOf s :: seen) rest

/-- Phase 3 deduplication of the draft list. -/
def dedupeSuggestions (l : List Sugg) : List Sugg := dedupeAux [] l

/-! ## Graph client: `graphFetch` throttle handling -/

/-- One HTTP response to the modelled request: status, optional
`Retry-After` seconds, and the body. -/
structure GraphResponse where
  status : Nat
  retryAfter : Option Nat
  body : String
  deriving DecidableEq

/-- Outcome of `graphFetch`. -/
inductive FetchOutcome : Type
  /-- A 2xx response: the parsed body is returned unchanged. -/
  | success (body : String)
  /-- A thrown `Graph API error <status>: <body>`. -/
  | failure (message : String)
  /-- The scripted response list was exhausted while still retrying
  (the unbounded recursion of the source never returns by itself). -/
  | exhausted
  deriving DecidableEq

/-- Embedding of `graphFetch` against the finite script of responses the
server gives to the successive identical requests: on 429 sleep
`Retry-After` seconds (5 when absent) and recurse; on another non-2xx
status fail with the status and body embedded; on 2xx return the body.
The first component collects the sleep durations in seconds. -/
def graphFetchModel : List GraphResponse → List Nat × FetchOutcome
  | [] => ([], FetchOutcome.exhausted)
  | r :: rest =>
    if r.status = 429 then
      let rec_ := graphFetchModel rest
      (r.retryAfter.getD 5 :: rec_.1, rec_.2)
    else if 200 ≤ r.status ∧ r.status ≤ 299 then
      ([], FetchOutcome.success r.body)
    else
      ([], FetchOutcome.failure ("Graph API error " ++ Nat.repr r.status ++ ": " ++ r.body))

/-! ## Concrete inputs used by the witnesses and counterexamples -/

/-- A remote tree: the root lists one subfolder, that subfolder lists one
hundred subfolders, everything else is empty. -/
def wideTree : RemoteTree := fun n =>
  if n = 0 then Except.ok [{ rid := 1, name := "A", isFolder := true, size := 0 }]
  else if n = 1 then
    Except.ok (List.replicate 100 { rid := 2, name := "x", isFolder := true, size := 0 })
  else Except.ok []

/-- A freshly seeded scan over `wideTree`: one pending root queue row. -/
def seededScan : ScanState :=
  { queue := [{ qid := 0, nodeId := 0, depth := 0, folderPath := "/D/",
                status := QStatus.pending, errorMessage := none, createdAt := 0 }]
    inventory := []
    totalFiles := 0, totalFolders := 0, totalSizeBytes := 0
    crawlProgress := 0
    status := ScanStatus.crawling, errorMessage := none, nextQid := 1 }

/-- A scan whose only queue row has sat in `processing` since time 0. -/
def staleScan : ScanState :=
  { queue := [{ qid := 0, nodeId := 0, depth := 0, folderPath := "/D/",
                status := QStatus.processing, errorMessage := none, createdAt := 0 }]
    inventory := []
    totalFiles := 0, totalFolders := 0, totalSizeBytes := 0
    crawlProgress := 7
    status := ScanStatus.crawling, errorMessage := none, nextQid := 1 }

/-- A drained scan: the single queue row failed, nothing reached `done`. -/
def failedScan : ScanState :=
  { queue := [{ qid := 0, nodeId := 0, depth := 0, folderPath := "/D/",
                status := QStatus.error, errorMessage := some "boom", createdAt := 0 }]
    inventory := []
    totalFiles := 0, totalFolders := 0, totalSizeBytes := 0
    crawlProgress := 40
    status := ScanStatus.crawling, errorMessage := none, nextQid := 1 }

/-- A drained scan with one `done` row and two inventory rows. -/
def drainedScan : ScanState :=
  { queue := [{ qid := 0, nodeId := 0, depth := 0, folderPath := "/D/",
                status := QStatus.done, errorMessage := none, createdAt := 0 }]
    inventory :=
      [ { name := "Sub", isFolder := true, sizeBytes := 0, path := "/D/Sub/", depth := 1 }
      , { name := "f.txt", isFolder := false, sizeBytes := 123, path := "/D/f.txt", depth := 0 } ]
    totalFiles := 9, totalFolders := 9, totalSizeBytes := 9
    crawlProgress := 99
    status := ScanStatus.crawling, errorMessage := none, nextQid := 1 }

/-- A folder row at depth 2 whose path carries the trailing separator the
crawl writes for folders. -/
def sparseFolder : FileRow :=
  { id := "fo", name := "Sub", fileExtension := none, sizeBytes := 0,
    isFolder := true, path := "/Drive/Sub/", depth := 2, modifiedAt := none }

/-- The single direct file child of `sparseFolder`. -/
def sparseChild : FileRow :=
  { id := "fi", name := "f.txt", fileExtension := some "txt", sizeBytes := 100,
    isFolder := false, path := "/Drive/Sub/f.txt", depth := 2, modifiedAt := none }

/-- `report.docx`, 500 bytes, modified 2024-01-01. -/
def janRow : FileRow :=
  { id := "jan", name := "report.docx", fileExtension := some "docx", sizeBytes := 500,
    isFolder := false, path := "/TeamA/report.docx", depth := 1,
    modifiedAt := some 1704067200000 }

/-- `report.docx`, 500 bytes, modified 2024-06-01. -/
def juneRow : FileRow :=
  { id := "jun", name := "report.docx", fileExtension := some "docx", sizeBytes := 500,
    isFolder := false, path := "/TeamB/report.docx", depth := 1,
    modifiedAt := some 1717200000000 }

/-- An archive file directly inside `/A`. -/
def zipRow : FileRow :=
  { id := "z", name := "report.zip", fileExtension := some "zip", sizeBytes := 9,
    isFolder := false, path := "/A/report.zip", depth := 1, modifiedAt := none }

/-- A folder named like the base name of `zipRow` but living in the
subdirectory `/A/sub`, not in the directory of the archive. -/
def nestedFolderRow : FileRow :=
  { id := "nf", name := "report", fileExtension := none, sizeBytes := 0,
    isFolder := true, path := "/A/sub/report/", depth := 3, modifiedAt := none }

/-! ## Proof-support definitions -/

/-- Modification time with the `|| 0` default of the rule 8 comparator. -/
def timeOf (f : FileRow) : Nat := f.modifiedAt.getD 0

/-- The single queue row of `staleScan`. -/
def staleItem : QueueItem :=
  { qid := 0, nodeId := 0, depth := 0, folderPath := "/D/",
    status := QStatus.processing, errorMessage := none, createdAt := 0 }

/-- The `seen` set after the dedup filter processed a list. -/
def seenAfter (seen : List String) : List Sugg → List String
  | [] => seen
  | s :: rest =>
    if seen.contains (dedupKeyOf s) then seenAfter seen rest
    else seenAfter (dedupKeyOf s :: seen) rest

/-! ## Helper lemmas -/

theorem insBy_perm {α : Type} (lt : α → α → Bool) (a : α) (l : List α) :
    (insBy lt a l).Perm (a :: l) := by
  induction l with
  | nil => simp [insBy]
  | cons b l ih =>
    simp only [insBy]
    split
    · exact (ih.cons b).trans (List.Perm.swap a b l)
    · exact List.Perm.refl _

theorem sortBy_perm {α : Type} (lt : α → α → Bool) (l : List α) :
    (sortBy lt l).Perm l := by
  induction l with
  | nil => simp [sortBy]
  | cons a l ih => exact (insBy_perm lt a (sortBy lt l)).trans (ih.cons a)

theorem mem_sortBy {α : Type} {lt : α → α → Bool} {l : List α} {x : α} :
    x ∈ sortBy lt l ↔ x ∈ l := (sortBy_perm lt l).mem_iff

theorem length_sortBy {α : Type} (lt : α → α → Bool) (l : List α) :
    (sortBy lt l).length = l.length := (sortBy_perm lt l).length_eq

theorem insBy_newer_pairwise (a : FileRow) (l : List FileRow)
    (h : l.Pairwise (fun x y => timeOf y ≤ timeOf x)) :
    (insBy newerThan a l).Pairwise (fun x y => timeOf y ≤ timeOf x) := by
  induction l with
  | nil => simp [insBy]
  | cons b l ih =>
    rcases List.pairwise_cons.mp h with ⟨hb, hl⟩
    simp only [insBy]
    split
    · rename_i hlt
      refine List.pairwise_cons.mpr ⟨?_, ih hl⟩
      intro x hx
      rcases List.mem_cons.mp ((insBy_perm newerThan a l).mem_iff.mp hx) with hx | hx
      · subst hx
        exact Nat.le_of_lt (by simpa [newerThan, timeOf] using hlt)
      · exact hb x hx
    · rename_i hlt
      refine List.pairwise_cons.mpr ⟨?_, h⟩
      intro x hx
      have hba : timeOf b ≤ timeOf a := by
        simpa [newerThan, timeOf, Nat.not_lt] using hlt
      rcases List.mem_cons.mp hx with hx | hx
      · subst hx; exact hba
      · exact Nat.le_trans (hb x hx) hba

theorem sortBy_newer_pairwise (l : List FileRow) :
    (sortBy newerThan l).Pairwise (fun x y => timeOf y ≤ timeOf x) := by
  induction l with
  | nil => simp [sortBy]
  | cons a l ih => exact insBy_newer_pairwise a (sortBy newerThan l) ih

theorem mem_dedupStringsAux {k : String} :
    ∀ (l : List String) (seen : List String), k ∈ l → k ∉ seen →
      k ∈ dedupStringsAux seen l := by
  intro l
  induction l with
  | nil => intro seen h; cases h
  | cons c rest ih =>
    intro seen hk hseen
    simp only [dedupStringsAux]
    split
    · rename_i hc
      rcases List.mem_cons.mp hk with hk | hk
      · subst hk; exact absurd (by simpa using hc) hseen
      · exact ih seen hk hseen
    · rcases List.mem_cons.mp hk with hk | hk
      · subst hk; exact List.mem_cons_self _ _
      · by_cases hkc : k = c
        · subst hkc; exact List.mem_cons_self _ _
        · refine List.mem_cons_of_mem _ (ih (c :: seen) hk ?_)
          intro hc
          rcases List.mem_cons.mp hc with hc | hc
          · exact hkc hc
          · exact hseen hc

theorem mem_dedupStrings {k : String} {l : List String} (h : k ∈ l) :
    k ∈ dedupStrings l := mem_dedupStringsAux l [] h (by simp)

theorem dedupeAux_append (xs ys : List Sugg) :
    ∀ seen, dedupeAux seen (xs ++ ys) =
      dedupeAux seen xs ++ dedupeAux (seenAfter seen xs) ys := by
  induction xs with
  | nil => intro seen; simp [dedupeAux, seenAfter]
  | cons s xs ih =>
    intro seen
    simp only [List.cons_append, dedupeAux, seenAfter]
    split
    · exact ih seen
    · simpa using ih (dedupKeyOf s :: seen)

theorem mem_seenAfter_of_mem_seen {k : String} :
    ∀ (xs : List Sugg) (seen : List String), k ∈ seen → k ∈ seenAfter seen xs := by
  intro xs
  induction xs with
  | nil => intro seen h; simpa [seenAfter] using h
  | cons s xs ih =>
    intro seen h
    simp only [seenAfter]
    split
    · exact ih seen h
    · exact ih _ (List.mem_cons_of_mem _ h)

theorem key_mem_seenAfter {x : Sugg} :
    ∀ (xs : List Sugg) (seen : List String), x ∈ xs →
      dedupKeyOf x ∈ seenAfter seen xs := by
  intro xs
  induction xs with
  | nil => intro seen h; cases h
  | cons s xs ih =>
    intro seen hx
    simp only [seenAfter]
    split
    · rename_i hc
      rcases List.mem_cons.mp hx with hx | hx
      · subst hx
        exact mem_seenAfter_of_mem_seen xs seen (by simpa using hc)
      · exact ih seen hx
    · rcases List.mem_cons.mp hx with hx | hx
      · subst hx
        exact mem_seenAfter_of_mem_seen xs _ (List.mem_cons_self _ _)
      · exact ih _ hx

theorem dedupeAux_nil_of_seen (ys : List Sugg) :
    ∀ seen, (∀ y ∈ ys, dedupKeyOf y ∈ seen) → dedupeAux seen ys = [] := by
  induction ys with
  | nil => intro _ _; rfl
  | cons s ys ih =>
    intro seen h
    have hs : dedupKeyOf s ∈ seen := h s (List.mem_cons_self _ _)
    simp only [dedupeAux]
    rw [if_pos (by simpa using hs)]
    exact ih seen (fun y hy => h y (List.mem_cons_of_mem _ hy))

theorem dedupe_self_append (l : List Sugg) :
    dedupeSuggestions (l ++ l) = dedupeSuggestions l := by
  unfold dedupeSuggestions
  rw [dedupeAux_append]
  rw [dedupeAux_nil_of_seen l (seenAfter [] l) (fun y hy => key_mem_seenAfter l [] hy)]
  simp

theorem invTotals_eq (inv : List InvRow) :
    invTotals inv =
      { files := (inv.filter (fun r => !r.isFolder)).length
        folders := (inv.filter (fun r => r.isFolder)).length
        size := ((inv.filter (fun r => !r.isFolder)).map (fun r => r.sizeBytes)).sum } := by
  have go : ∀ (l : List InvRow) (acc : BatchCounters),
      l.foldl
        (fun acc r =>
          if r.isFolder then { acc with folders := acc.folders + 1 }
          else { acc with files := acc.files + 1, size := acc.size + r.sizeBytes }) acc
      = { files := acc.files + (l.filter (fun r => !r.isFolder)).length
          folders := acc.folders + (l.filter (fun r => r.isFolder)).length
          size := acc.size + ((l.filter (fun r => !r.isFolder)).map (fun r => r.sizeBytes)).sum } := by
    intro l
    induction l with
    | nil => intro acc; simp
    | cons r l ih =>
      intro acc
      by_cases hr : r.isFolder
      · simp only [List.foldl_cons, hr, if_pos, List.filter_cons, Bool.not_true,
          Bool.false_eq_true, ite_false, ite_true, List.length_cons, ih]
        refine congrArg₂ (fun a b => BatchCounters.mk a _ b) rfl rfl |>.trans ?_
        simp [BatchCounters.mk.injEq]
        omega
      · have hr' : r.isFolder = false := by simpa using hr
        simp only [List.foldl_cons, hr', Bool.false_eq_true, ite_false, List.filter_cons,
          Bool.not_false, ite_true, List.length_cons, List.map_cons, List.sum_cons, ih]
        simp [BatchCounters.mk.injEq]
        omega
  have h0 := go inv { files := 0, folders := 0, size := 0 }
  simpa [invTotals] using h0

theorem mem_markQueue_of_ne {queue : List QueueItem} {q : QueueItem} (h : q ∈ queue)
    {qid : Nat} (hne : q.qid ≠ qid) (st : QStatus) (msg : Option String) :
    q ∈ markQueue queue qid st msg :=
  List.mem_map.mpr ⟨q, h, by simp [hne]⟩

theorem mem_selectBatch {n : Nat} {queue : List QueueItem} {x : QueueItem}
    (h : x ∈ selectBatch n queue) : x ∈ queue ∧ x.status = QStatus.pending := by
  unfold selectBatch at h
  have hx := mem_sortBy.mp (List.mem_of_mem_take h)
  have hm := List.mem_filter.mp hx
  exact ⟨hm.1, by simpa using hm.2⟩

theorem foldl_runOne_status (tree : RemoteTree) (now : Nat) (qqid : Nat) :
    ∀ (sel : List QueueItem), (∀ i ∈ sel, i.qid ≠ qqid) →
    ∀ acc : ScanState × BatchCounters,
      (∃ q' ∈ acc.1.queue, q'.qid = qqid ∧ q'.status = QStatus.processing) →
      ∃ q' ∈ (sel.foldl (runOne tree now) acc).1.queue,
        q'.qid = qqid ∧ q'.status = QStatus.processing := by
  intro sel
  induction sel with
  | nil => intro _ acc h; simpa using h
  | cons i sel ih =>
    intro hne acc hacc
    simp only [List.foldl_cons]
    refine ih (fun j hj => hne j (List.mem_cons_of_mem _ hj)) _ ?_
    obtain ⟨q', hmem, hqid, hst⟩ := hacc
    have hq'ne : q'.qid ≠ i.qid := by
      rw [hqid]
      exact fun hh => hne i (List.mem_cons_self _ _) hh.symm
    unfold runOne
    cases hpf : processFolder tree now acc.1.nextQid i with
    | ok res =>
      refine ⟨q', ?_, hqid, hst⟩
      simp only [hpf]
      exact List.mem_append_left _ (mem_markQueue_of_ne hmem hq'ne _ _)
    | error msg =>
      refine ⟨q', ?_, hqid, hst⟩
      simp only [hpf]
      exact mem_markQueue_of_ne hmem hq'ne _ _

theorem finalizeCrawl_cases (s : ScanState) :
    (countStatus s.queue QStatus.done = 0 ∧ 0 < countStatus s.queue QStatus.error ∧
      finalizeCrawl s =
        { s with status := ScanStatus.error,
                 errorMessage := some (firstErrorMessage s.queue) }) ∨
    (¬(countStatus s.queue QStatus.done = 0 ∧ 0 < countStatus s.queue QStatus.error) ∧
      finalizeCrawl s =
        { s with status := ScanStatus.crawled, crawlProgress := 100,
                 totalFiles := (invTotals s.inventory).files,
                 totalFolders := (invTotals s.inventory).folders,
                 totalSizeBytes := (invTotals s.inventory).size }) := by
  unfold finalizeCrawl
  split
  · rename_i hc; exact Or.inl ⟨hc.1, hc.2, rfl⟩
  · rename_i hc; exact Or.inr ⟨hc, rfl⟩

theorem progressFormula_le (d t : Nat) : progressFormula d t ≤ 99 := by
  unfold progressFormula
  split
  · omega
  · exact Nat.min_le_right _ _

theorem finalize_progress100 (s : ScanState) (h : s.crawlProgress ≤ 99) :
    (finalizeCrawl s).crawlProgress = 100 →
      (finalizeCrawl s).status = ScanStatus.crawled := by
  rcases finalizeCrawl_cases s with ⟨_, _, heq⟩ | ⟨_, heq⟩ <;> rw [heq]
  · intro h100; simp at h100; omega
  · intro _; rfl

theorem finalizeCrawl_queue (s : ScanState) : (finalizeCrawl s).queue = s.queue := by
  rcases finalizeCrawl_cases s with ⟨_, _, heq⟩ | ⟨_, heq⟩ <;> rw [heq]

theorem finalizeCrawl_inventory (s : ScanState) :
    (finalizeCrawl s).inventory = s.inventory := by
  rcases finalizeCrawl_cases s with ⟨_, _, heq⟩ | ⟨_, heq⟩ <;> rw [heq]

theorem processFolder_row_depth (tree : RemoteTree) (now baseQid : Nat) (q : QueueItem)
    (res : FolderResult) (h : processFolder tree now baseQid q = Except.ok res) :
    ∀ r ∈ res.rows, r.depth = q.depth + (if r.isFolder then 1 else 0) := by
  unfold processFolder at h
  cases htree : tree q.nodeId with
  | error m => rw [htree] at h; simp at h
  | ok children =>
    rw [htree] at h
    simp only [Except.ok.injEq] at h
    subst h
    intro r hr
    obtain ⟨it, _, hit⟩ := List.mem_map.mp hr
    subst hit
    rfl

theorem mem_assignQueueItems_depth (q : QueueItem) (now : Nat) :
    ∀ (l : List RemoteItem) (base : Nat) (nq : QueueItem),
      nq ∈ assignQueueItems q now base l → nq.depth = q.depth + 1 := by
  intro l
  induction l with
  | nil => intro base nq h; cases h
  | cons it rest ih =>
    intro base nq h
    rcases List.mem_cons.mp h with h | h
    · subst h; rfl
    · exact ih (base + 1) nq h

theorem processFolder_newItem_depth (tree : RemoteTree) (now baseQid : Nat) (q : QueueItem)
    (res : FolderResult) (h : processFolder tree now baseQid q = Except.ok res) :
    ∀ nq ∈ res.newItems, nq.depth = q.depth + 1 := by
  unfold processFolder at h
  cases htree : tree q.nodeId with
  | error m => rw [htree] at h; simp at h
  | ok children =>
    rw [htree] at h
    simp only [Except.ok.injEq] at h
    subst h
    intro nq hnq
    exact mem_assignQueueItems_depth q now _ baseQid nq hnq

/-- C10: when a queue item at depth `d` is expanded, every discovered
child folder is recorded with depth `d + 1` (both as an inventory row and
as a new queue item) while every discovered child file is recorded with
depth `d`; hence a file found inside a folder carries the recorded depth
of that folder, and sibling file and subfolder rows differ in depth by
one. -/
theorem processFolder_depth_convention (tree : RemoteTree) (now baseQid : Nat)
    (q : QueueItem) (res : FolderResult)
    (h : processFolder tree now baseQid q = Except.ok res) :
    (∀ r ∈ res.rows, r.depth = q.depth + (if r.isFolder then 1 else 0)) ∧
    (∀ r ∈ res.rows, r.isFolder = false → r.depth = q.depth) ∧
    (∀ nq ∈ res.newItems, nq.depth = q.depth + 1) ∧
    (∀ f ∈ res.rows, ∀ g ∈ res.rows, f.isFolder = false → g.isFolder = true →
      g.depth = f.depth + 1) ∧
    (∀ nq ∈ res.newItems, ∀ (now2 base2 : Nat) (res2 : FolderResult),
      processFolder tree now2 base2 nq = Except.ok res2 →
      ∀ r ∈ res2.rows, r.isFolder = false → r.depth = q.depth + 1) := by
  have hrow := processFolder_row_depth tree now baseQid q res h
  have hnew := processFolder_newItem_depth tree now baseQid q res h
  refine ⟨hrow, ?_, hnew, ?_, ?_⟩
  · intro r hr hf
    have := hrow r hr
    rw [hf] at this
    simpa using this
  · intro f hf g hg hff hgf
    have h1 := hrow f hf
    have h2 := hrow g hg
    rw [hff] at h1
    rw [hgf] at h2
    simp at h1 h2
    omega
  · intro nq hnq now2 base2 res2 h2 r hr hrf
    have hd := hnew nq hnq
    have := processFolder_row_depth tree now2 base2 nq res2 h2 r hr
    rw [hrf] at this
    simp at this
    omega

/-- C1 and C10 witness root: the seeded root queue row over `wideTree`. -/
def rootQ : QueueItem :=
  { qid := 0, nodeId := 0, depth := 0, folderPath := "/D/",
    status := QStatus.pending, errorMessage := none, createdAt := 0 }

theorem processFolder_depth_convention_witness :
    (∀ r ∈ ({ rows := [{ name := "A", isFolder := true, sizeBytes := 0,
                          path := "/D/A/", depth := 1 }]
              newItems := [{ qid := 5, nodeId := 1, depth := 1, folderPath := "/D/A/",
                             status := QStatus.pending, errorMessage := none, createdAt := 7 }]
              counters := { files := 0, folders := 1, size := 0 } } : FolderResult).rows,
        r.depth = rootQ.depth + (if r.isFolder then 1 else 0)) ∧
    (∀ r ∈ ({ rows := [{ name := "A", isFolder := true, sizeBytes := 0,
                          path := "/D/A/", depth := 1 }]
              newItems := [{ qid := 5, nodeId := 1, depth := 1, folderPath := "/D/A/",
                             status := QStatus.pending, errorMessage := none, createdAt := 7 }]
              counters := { files := 0, folders := 1, size := 0 } } : FolderResult).rows,
        r.isFolder = false → r.depth = rootQ.depth) ∧
    (∀ nq ∈ ({ rows := [{ name := "A", isFolder := true, sizeBytes := 0,
                          path := "/D/A/", depth := 1 }]
               newItems := [{ qid := 5, nodeId := 1, depth := 1, folderPath := "/D/A/",
                              status := QStatus.pending, errorMessage := none, createdAt := 7 }]
               counters := { files := 0, folders := 1, size := 0 } } : FolderResult).newItems,
        nq.depth = rootQ.depth + 1) ∧
    (∀ f ∈ ({ rows := [{ name := "A", isFolder := true, sizeBytes := 0,
                         path := "/D/A/", depth := 1 }]
              newItems := [{ qid := 5, nodeId := 1, depth := 1, folderPath := "/D/A/",
                             status := QStatus.pending, errorMessage := none, createdAt := 7 }]
              counters := { files := 0, folders := 1, size := 0 } } : FolderResult).rows,
      ∀ g ∈ ({ rows := [{ name := "A", isFolder := true, sizeBytes := 0,
                          path := "/D/A/", depth := 1 }]
               newItems := [{ qid := 5, nodeId := 1, depth := 1, folderPath := "/D/A/",
                              status := QStatus.pending, errorMessage := none, createdAt := 7 }]
               counters := { files := 0, folders := 1, size := 0 } } : FolderResult).rows,
        f.isFolder = false → g.isFolder = true → g.depth = f.depth + 1) ∧
    (∀ nq ∈ ({ rows := [{ name := "A", isFolder := true, sizeBytes := 0,
                          path := "/D/A/", depth := 1 }]
               newItems := [{ qid := 5, nodeId := 1, depth := 1, folderPath := "/D/A/",
                              status := QStatus.pending, errorMessage := none, createdAt := 7 }]
               counters := { files := 0, folders := 1, size := 0 } } : FolderResult).newItems,
      ∀ (now2 base2 : Nat) (res2 : FolderResult),
        processFolder wideTree now2 base2 nq = Except.ok res2 →
        ∀ r ∈ res2.rows, r.isFolder = false → r.depth = rootQ.depth + 1) :=
  processFolder_depth_convention wideTree 7 5 rootQ _ (by rfl)

/-- C3: when `processBatch` finds no pending queue row for a scan whose
queue is non-empty, finalization runs: with zero `done` rows and at least
one `error` row the scan becomes `error` carrying the first recorded
error message; otherwise it becomes `crawled` with progress 100 and its
persisted totals recomputed exactly from the inventory rows, so that
`total_size_bytes` equals the sum of `size_bytes` over the non-folder
rows (and `total_files` / `total_folders` the corresponding counts). -/
theorem processBatch_drained_finalizes (tree : RemoteTree) (now : Nat) (s : ScanState)
    (h1 : countStatus s.queue QStatus.pending = 0) (h2 : s.queue ≠ []) :
    ((countStatus s.queue QStatus.done = 0 ∧ 0 < countStatus s.queue QStatus.error) →
      (processBatchContinue tree now s).status = ScanStatus.error ∧
      (processBatchContinue tree now s).errorMessage =
        some (firstErrorMessage s.queue)) ∧
    (¬(countStatus s.queue QStatus.done = 0 ∧ 0 < countStatus s.queue QStatus.error) →
      (processBatchContinue tree now s).status = ScanStatus.crawled ∧
      (processBatchContinue tree now s).crawlProgress = 100 ∧
      (processBatchContinue tree now s).inventory = s.inventory ∧
      (processBatchContinue tree now s).totalSizeBytes =
        (((processBatchContinue tree now s).inventory.filter
          (fun r => !r.isFolder)).map (fun r => r.sizeBytes)).sum ∧
      (processBatchContinue tree now s).totalFiles =
        ((processBatchContinue tree now s).inventory.filter
          (fun r => !r.isFolder)).length ∧
      (processBatchContinue tree now s).totalFolders =
        ((processBatchContinue tree now s).inventory.filter
          (fun r => r.isFolder)).length) := by
  have hfil : s.queue.filter (fun q => q.status = QStatus.pending) = [] := by
    unfold countStatus at h1
    exact List.length_eq_zero.mp h1
  have hsel : selectBatch 50 s.queue = [] := by
    unfold selectBatch
    rw [hfil]
    rfl
  have hpc : processBatchContinue tree now s = finalizeCrawl s := by
    unfold processBatchContinue
    rw [hsel]
    simp [h2]
  rw [hpc]
  rcases finalizeCrawl_cases s with ⟨hd, he, heq⟩ | ⟨hc, heq⟩
  · constructor
    · intro _
      rw [heq]
      exact ⟨rfl, rfl⟩
    · intro hcon
      exact absurd ⟨hd, he⟩ hcon
  · constructor
    · intro hcon
      exact absurd hcon hc
    · intro _
      rw [heq]
      refine ⟨rfl, rfl, rfl, ?_, ?_, ?_⟩ <;> simp [invTotals_eq]

theorem processBatch_drained_finalizes_witness :
    countStatus failedScan.queue QStatus.pending = 0 ∧ failedScan.queue ≠ [] ∧
    (((countStatus failedScan.queue QStatus.done = 0 ∧
        0 < countStatus failedScan.queue QStatus.error) →
      (processBatchContinue wideTree 0 failedScan).status = ScanStatus.error ∧
      (processBatchContinue wideTree 0 failedScan).errorMessage =
        some (firstErrorMessage failedScan.queue))) ∧
    (countStatus failedScan.queue QStatus.done = 0 ∧
      0 < countStatus failedScan.queue QStatus.error) ∧
    firstErrorMessage failedScan.queue = "boom" :=
  ⟨by decide, by decide,
    (processBatch_drained_finalizes wideTree 0 failedScan (by decide) (by decide)).1,
    by decide, by decide⟩

/-- C4 (code bug): rule 11 is dead on crawler-written paths.  The folder
row `/Drive/Sub/` at depth 2 has exactly one direct file child
`/Drive/Sub/f.txt`, yet the sparse-folder rule emits nothing: the child
counts are keyed by `path.substring(0, path.lastIndexOf('/'))`, which
never carries the trailing separator every crawler-written folder path
ends with, so the lookup under `folder.path` always misses. -/
theorem rule11_dead_on_crawler_paths :
    sparseFolder.isFolder = true ∧ 1 < sparseFolder.depth ∧
    sparseChild.isFolder = false ∧
    sparseChild.path = sparseFolder.path ++ sparseChild.name ∧
    parentPath sparseChild.path = "/Drive/Sub" ∧ sparseFolder.path = "/Drive/Sub/" ∧
    fileChildCount [sparseFolder, sparseChild] "/Drive/Sub" = 1 ∧
    rule11 [sparseFolder, sparseChild] = [] := by decide

/-- C5 (code bug): rule 12 is dead on crawler-written paths.  A folder
row with 50 direct children never receives an overcrowded-folder
suggestion: the direct-children counts are keyed by
`path.substring(0, path.lastIndexOf('/'))` (no trailing separator) while
the lookup uses the folder path with its trailing separator. -/
theorem rule12_dead_on_crawler_paths :
    sparseFolder.isFolder = true ∧
    directChildCount (sparseFolder :: List.replicate 50 sparseChild) "/Drive/Sub" = 51 ∧
    (∀ c ∈ List.replicate 50 sparseChild, c.path = sparseFolder.path ++ c.name) ∧
    rule12 (sparseFolder :: List.replicate 50 sparseChild) = [] := by decide

/-- C9: a 429 response causes exactly one recorded pause of `Retry-After`
seconds (5 when the header is absent) followed by a retry of the
identical request, with no bound on the number of retries; any other
non-2xx response fails with an error embedding the status and body; a
2xx response returns the body unchanged. -/
theorem graphFetch_behavior (r : GraphResponse) (rest : List GraphResponse)
    (n : Nat) (b : String) :
    (r.status = 429 →
      graphFetchModel (r :: rest) =
        (r.retryAfter.getD 5 :: (graphFetchModel rest).1, (graphFetchModel rest).2)) ∧
    (r.status = 429 → r.retryAfter = none →
      graphFetchModel (r :: rest) =
        (5 :: (graphFetchModel rest).1, (graphFetchModel rest).2)) ∧
    (200 ≤ r.status → r.status ≤ 299 →
      graphFetchModel (r :: rest) = ([], FetchOutcome.success r.body)) ∧
    (r.status ≠ 429 → ¬(200 ≤ r.status ∧ r.status ≤ 299) →
      graphFetchModel (r :: rest) =
        ([], FetchOutcome.failure
          ("Graph API error " ++ Nat.repr r.status ++ ": " ++ r.body))) ∧
    (graphFetchModel
        (List.replicate n { status := 429, retryAfter := none, body := b } ++ rest) =
      (List.replicate n 5 ++ (graphFetchModel rest).1, (graphFetchModel rest).2)) := by
  refine ⟨?_, ?_, ?_, ?_, ?_⟩
  · intro h429
    simp [graphFetchModel, h429]
  · intro h429 hnone
    simp [graphFetchModel, h429, hnone]
  · intro hlo hhi
    have hne : ¬r.status = 429 := by omega
    simp [graphFetchModel, hne, hlo, hhi]
  · intro hne hok
    rw [show graphFetchModel (r :: rest) =
      (if r.status = 429 then
        (r.retryAfter.getD 5 :: (graphFetchModel rest).1, (graphFetchModel rest).2)
      else if 200 ≤ r.status ∧ r.status ≤ 299 then ([], FetchOutcome.success r.body)
      else ([], FetchOutcome.failure
        ("Graph API error " ++ Nat.repr r.status ++ ": " ++ r.body))) from rfl]
    rw [if_neg hne, if_neg hok]
  · induction n with
    | zero => simp
    | succ k ih =>
      simp only [List.replicate_succ, List.cons_append]
      rw [show ∀ tl, graphFetchModel
          ({ status := 429, retryAfter := none, body := b } :: tl) =
          ((5 : Nat) :: (graphFetchModel tl).1, (graphFetchModel tl).2) from
        fun tl => by simp [graphFetchModel]]
      rw [ih]

theorem graphFetch_behavior_witness :
    graphFetchModel
        [{ status := 429, retryAfter := some 3, body := "t" },
         { status := 200, retryAfter := none, body := "page" }] =
      ([3], FetchOutcome.success "page") := by
  have h1 := (graphFetch_behavior { status := 429, retryAfter := some 3, body := "t" }
    [{ status := 200, retryAfter := none, body := "page" }] 0 "").1 rfl
  have h2 := (graphFetch_behavior { status := 200, retryAfter := none, body := "page" }
    [] 0 "").2.2.1 (by decide) (by decide)
  rw [h1, h2]
  rfl

theorem updateScanProgress_le (x : ScanState) (c : BatchCounters) :
    (updateScanProgress x c).crawlProgress ≤ 99 := progressFormula_le _ _

theorem finalize_step_progress (x : ScanState) (hx : x.crawlProgress ≤ 99) :
    (if countStatus x.queue QStatus.pending = 0 then finalizeCrawl x else x).crawlProgress
        = 100 →
      (if countStatus x.queue QStatus.pending = 0 then finalizeCrawl x
        else x).status = ScanStatus.crawled := by
  split
  · exact finalize_progress100 x hx
  · intro h100; omega

theorem expandBatch_progress (tree : RemoteTree) (now : Nat) (s : ScanState)
    (sel : List QueueItem) :
    (expandBatch tree now s sel).crawlProgress = 100 →
      (expandBatch tree now s sel).status = ScanStatus.crawled := by
  simp only [expandBatch]
  exact finalize_step_progress _ (updateScanProgress_le _ _)

/-- C1 (amended): every non-final progress update computes
`min(round(done/total*100), 99)`, a value never exceeding 99, and an
invocation of the poll-driven `processBatch` can report progress 100 only
by finalizing the scan (status `crawled`); however progress is NOT
monotonically non-decreasing across successive invocations, see the
counterexample. -/
theorem crawl_progress_clamped (tree : RemoteTree) (now : Nat) (s : ScanState)
    (h : s.crawlProgress ≤ 99) :
    (∀ d t, progressFormula d t ≤ 99) ∧
    ((processBatchContinue tree now s).crawlProgress = 100 →
      (processBatchContinue tree now s).status = ScanStatus.crawled) := by
  refine ⟨progressFormula_le, ?_⟩
  unfold processBatchContinue
  dsimp only
  split
  · split
    · intro h100; omega
    · exact finalize_progress100 s h
  · exact expandBatch_progress tree now s _

theorem crawl_progress_clamped_witness :
    seededScan.crawlProgress ≤ 99 ∧
    ((∀ d t, progressFormula d t ≤ 99) ∧
      ((processBatchContinue wideTree 1000 seededScan).crawlProgress = 100 →
        (processBatchContinue wideTree 1000 seededScan).status = ScanStatus.crawled)) :=
  ⟨by decide, crawl_progress_clamped wideTree 1000 seededScan (by decide)⟩

/-- C1 counterexample: two successive `processBatch` invocations of the
same crawling scan along which the persisted progress DECREASES from 50
to 2: the first batch expands the root (1 of 2 queue rows done, 50%),
the second expands the subfolder, which discovers 100 new subfolders
(2 of 102 done, rounding to 2%).  Both updates are non-final (status
stays `crawling`), refuting monotonic non-decrease. -/
theorem crawl_progress_not_monotone :
    (processBatchContinue wideTree 1000 seededScan).crawlProgress = 50 ∧
    (processBatchContinue wideTree 2000
        (processBatchContinue wideTree 1000 seededScan)).crawlProgress = 2 ∧
    (processBatchContinue wideTree 1000 seededScan).status = ScanStatus.crawling ∧
    (processBatchContinue wideTree 2000
        (processBatchContinue wideTree 1000 seededScan)).status = ScanStatus.crawling := by
  refine ⟨?_, ?_, ?_, ?_⟩ <;> decide

/-- C2 counterexample: at time 500000 ms the single queue row of
`staleScan` has been `processing` since time 0, far beyond the two-minute
window, yet the poll-driven `processBatch` of `continue-crawl` leaves it
in `processing` — it is never set back to `pending`, refuting that every
invocation of the batch cycle first reclaims stale work. -/
theorem continue_skips_stale_reclaim :
    (staleScan.queue.map (fun q => q.status)) = [QStatus.processing] ∧
    staleItem ∈ staleScan.queue ∧
    staleItem.createdAt < 500000 - 2 * 60 * 1000 ∧
    ((processBatchContinue wideTree 500000 staleScan).queue.map (fun q => q.status)) =
      [QStatus.processing] := by decide

/-- C2 (amended): the stale-work reclaim exists only in the seed-side
`processBatch` of `crawl-sharepoint`: there, before batch selection,
every `processing` row whose `created_at` is older than the two-minute
window is set back to `pending` and every other row is untouched; the
poll-driven `processBatch` of `continue-crawl` performs no reclaim — a
`processing` row keeps status `processing` across that whole
invocation. -/
theorem stale_reclaim_crawl_only (tree : RemoteTree) (now : Nat) (s : ScanState)
    (q : QueueItem) :
    (q ∈ s.queue → q.status = QStatus.processing →
      q.createdAt < now - 2 * 60 * 1000 →
      { q with status := QStatus.pending } ∈ reclaimStale now s.queue) ∧
    (q ∈ s.queue → ¬(q.status = QStatus.processing ∧ q.createdAt < now - 2 * 60 * 1000) →
      q ∈ reclaimStale now s.queue) ∧
    (processBatchCrawl tree now 50 s =
      (if (selectBatch 50 (reclaimStale now s.queue)).isEmpty then
        finalizeCrawl { s with queue := reclaimStale now s.queue }
      else
        expandBatch tree now { s with queue := reclaimStale now s.queue }
          (selectBatch 50 (reclaimStale now s.queue)))) ∧
    (q ∈ s.queue → (s.queue.map (fun x => x.qid)).Nodup →
      q.status = QStatus.processing →
      ∃ q' ∈ (processBatchContinue tree now s).queue,
        q'.qid = q.qid ∧ q'.status = QStatus.processing) := by
  refine ⟨?_, ?_, rfl, ?_⟩
  · intro hq hst hold
    exact List.mem_map.mpr ⟨q, hq, by simp [hst, hold]⟩
  · intro hq hnot
    exact List.mem_map.mpr ⟨q, hq, by simp [hnot]⟩
  · intro hq hnodup hst
    unfold processBatchContinue
    dsimp only
    split
    · split
      · exact ⟨q, hq, rfl, hst⟩
      · refine ⟨q, ?_, rfl, hst⟩
        rw [finalizeCrawl_queue]
        exact hq
    · simp only [expandBatch]
      have hselne : ∀ i ∈ selectBatch 50 s.queue, i.qid ≠ q.qid := by
        intro i hi hiq
        obtain ⟨him, hip⟩ := mem_selectBatch hi
        have hiqq : i = q := List.inj_on_of_nodup_map hnodup him hq hiq
        rw [hiqq, hst] at hip
        cases hip
      have hmarked : q ∈ List.map
          (fun x =>
            if ((selectBatch 50 s.queue).map (fun i => i.qid)).contains x.qid then
              { x with status := QStatus.processing }
            else x) s.queue := by
        refine List.mem_map.mpr ⟨q, hq, ?_⟩
        have hnm : q.qid ∉ (selectBatch 50 s.queue).map (fun i => i.qid) := by
          intro hmem
          obtain ⟨i, hi, hiq⟩ := List.mem_map.mp hmem
          exact hselne i hi hiq
        simp [hnm]
      split
      · rw [finalizeCrawl_queue]
        exact foldl_runOne_status tree now q.qid (selectBatch 50 s.queue) hselne _
          ⟨q, hmarked, rfl, hst⟩
      · exact foldl_runOne_status tree now q.qid (selectBatch 50 s.queue) hselne _
          ⟨q, hmarked, rfl, hst⟩

theorem stale_reclaim_crawl_only_witness :
    (staleItem ∈ staleScan.queue ∧ staleItem.status = QStatus.processing ∧
      staleItem.createdAt < 500000 - 2 * 60 * 1000) ∧
    { staleItem with status := QStatus.pending } ∈
      reclaimStale 500000 staleScan.queue :=
  ⟨⟨by decide, by decide, by decide⟩,
    (stale_reclaim_crawl_only wideTree 500000 staleScan staleItem).1
      (by decide) (by decide) (by decide)⟩

/-- C7 counterexample: the only folder named like the base of
`/A/report.zip` lives at `/A/sub/report/` — outside the directory `/A`
of the archive — yet rule 9 emits the suggestion, because the source
tests `f.path.startsWith(zipDir)`, a string-prefix test, not sibling
containment. -/
theorem rule9_fires_outside_directory :
    parentPath zipRow.path = "/A" ∧
    nestedFolderRow.path = "/A/sub/report/" ∧
    nestedFolderRow.path ≠ "/A/" ++ nestedFolderRow.name ++ "/" ∧
    nestedFolderRow.isFolder = true ∧
    strEqCi nestedFolderRow.name (stripArchiveExt zipRow.name) = true ∧
    rule9 [zipRow, nestedFolderRow] = [mkRule9Sugg zipRow nestedFolderRow] := by decide

/-- C7 (amended): for an archive file, rule 9 emits its
delete/medium/0.75 suggestion exactly when some folder row whose name
equals the archive base name (case-insensitively) has a full path that
starts with the archive directory string — folders in the same directory
or anywhere beneath a path extending it, not only siblings. -/
theorem rule9_prefix_semantics (files : List FileRow) (zip : FileRow)
    (hmem : zip ∈ files) (hfile : zip.isFolder = false)
    (harch : isArchiveName zip.name = true) :
    ((rule9Check files zip).isSome ↔
      ∃ fol ∈ files, fol.isFolder = true ∧
        strEqCi fol.name (stripArchiveExt zip.name) = true ∧
        strStartsWith fol.path (parentPath zip.path) = true) ∧
    (∀ fol, rule9Check files zip = some fol →
      mkRule9Sugg zip fol ∈ rule9 files ∧
      (mkRule9Sugg zip fol).category = SgCategory.delete ∧
      (mkRule9Sugg zip fol).severity = SgSeverity.medium ∧
      (mkRule9Sugg zip fol).confidence = 75) := by
  constructor
  · unfold rule9Check
    rw [List.find?_isSome]
    constructor
    · rintro ⟨f, hf, hp⟩
      refine ⟨f, hf, ?_⟩
      simpa [Bool.and_eq_true, and_assoc] using hp
    · rintro ⟨f, hf, h1, h2, h3⟩
      exact ⟨f, hf, by simp [h1, h2, h3]⟩
  · intro fol hfind
    refine ⟨?_, rfl, rfl, rfl⟩
    unfold rule9
    apply List.mem_filterMap.mpr
    refine ⟨zip, ?_, ?_⟩
    · refine List.mem_filter.mpr ⟨hmem, ?_⟩
      simp [hfile, harch]
    · rw [hfind]
      rfl

theorem rule9_prefix_semantics_witness :
    ((rule9Check [zipRow, nestedFolderRow] zipRow).isSome ↔
      ∃ fol ∈ [zipRow, nestedFolderRow], fol.isFolder = true ∧
        strEqCi fol.name (stripArchiveExt zipRow.name) = true ∧
        strStartsWith fol.path (parentPath zipRow.path) = true) ∧
    (∀ fol, rule9Check [zipRow, nestedFolderRow] zipRow = some fol →
      mkRule9Sugg zipRow fol ∈ rule9 [zipRow, nestedFolderRow] ∧
      (mkRule9Sugg zipRow fol).category = SgCategory.delete ∧
      (mkRule9Sugg zipRow fol).severity = SgSeverity.medium ∧
      (mkRule9Sugg zipRow fol).confidence = 75) :=
  rule9_prefix_semantics [zipRow, nestedFolderRow] zipRow
    (by decide) (by decide) (by decide)

/-- C8: suggestion drafts are deduplicated on the composite key
(item-id-or-current-path, category, title) with the first occurrence
winning; consequently running the (deterministic) rules engine twice,
taking the union of the outputs, and deduplicating yields exactly the
deduplicated single run. -/
theorem rules_dedup_law (now : Nat) (fmtDate : Nat → String) (files : List FileRow) :
    dedupeSuggestions
        (rulesSuggestions now fmtDate files ++ rulesSuggestions now fmtDate files) =
      dedupeSuggestions (rulesSuggestions now fmtDate files) :=
  dedupe_self_append _

theorem two_mem_le_length {α : Type} {l : List α} {a b : α}
    (ha : a ∈ l) (hb : b ∈ l) (hne : a ≠ b) : 2 ≤ l.length := by
  induction l with
  | nil => cases ha
  | cons x l ih =>
    rcases List.mem_cons.mp ha with rfl | ha'
    · rcases List.mem_cons.mp hb with rfl | hb'
      · exact absurd rfl hne
      · have : 0 < l.length := List.length_pos.mpr (List.ne_nil_of_mem hb')
        simp only [List.length_cons]
        omega
    · have : 0 < l.length := List.length_pos.mpr (List.ne_nil_of_mem ha')
      simp only [List.length_cons]
      omega

/-- C6: for a group of two or more non-folder rows sharing identical
(lowercased name, size) whose modification times are pairwise distinct,
rule 8 keeps the newest member as the implied original: the sorted group
is the newest member followed by the remaining members (a permutation of
the group without the newest), the emission for the key is exactly one
delete/high/0.85 suggestion per remaining member referencing the newest
path, and every non-newest member f receives its suggestion inside the
full rule 8 output. -/
theorem rule8_duplicate_groups (files : List FileRow) (f : FileRow)
    (hf : f ∈ files) (hnf : f.isFolder = false)
    (hne : ∃ m ∈ dupGroup files (dupKey f), timeOf f < timeOf m) :
    ∃ newest ∈ dupGroup files (dupKey f),
      (∀ x ∈ dupGroup files (dupKey f), timeOf x ≤ timeOf newest) ∧
      timeOf f < timeOf newest ∧
      ∃ rest,
        sortBy newerThan (dupGroup files (dupKey f)) = newest :: rest ∧
        rest.Perm ((dupGroup files (dupKey f)).erase newest) ∧
        emitForKey files (dupKey f) = rest.map (mkDupSugg newest) ∧
        f ∈ rest ∧
        mkDupSugg newest f ∈ rule8 files ∧
        (mkDupSugg newest f).category = SgCategory.delete ∧
        (mkDupSugg newest f).severity = SgSeverity.high ∧
        (mkDupSugg newest f).confidence = 85 := by
  have hfg : f ∈ dupGroup files (dupKey f) := by
    unfold dupGroup nonFolders
    refine List.mem_filter.mpr ⟨List.mem_filter.mpr ⟨hf, ?_⟩, ?_⟩ <;> simp [hnf]
  obtain ⟨m, hmg, hmt⟩ := hne
  have hfm : f ≠ m := fun h => by subst h; exact Nat.lt_irrefl _ hmt
  have hlen : 2 ≤ (dupGroup files (dupKey f)).length := two_mem_le_length hfg hmg hfm
  have hperm := sortBy_perm newerThan (dupGroup files (dupKey f))
  have hpair := sortBy_newer_pairwise (dupGroup files (dupKey f))
  obtain ⟨newest, rest, hcons⟩ :
      ∃ a t, sortBy newerThan (dupGroup files (dupKey f)) = a :: t := by
    cases hs : sortBy newerThan (dupGroup files (dupKey f)) with
    | nil =>
      have := length_sortBy newerThan (dupGroup files (dupKey f))
      rw [hs] at this
      simp at this
      omega
    | cons a t => exact ⟨a, t, rfl⟩
  have hnmem : newest ∈ dupGroup files (dupKey f) := by
    refine hperm.mem_iff.mp ?_
    rw [hcons]
    exact List.mem_cons_self _ _
  have hrle : ∀ x ∈ rest, timeOf x ≤ timeOf newest := by
    have hp := hpair
    rw [hcons] at hp
    exact (List.pairwise_cons.mp hp).1
  have hmax : ∀ x ∈ dupGroup files (dupKey f), timeOf x ≤ timeOf newest := by
    intro x hx
    have hx' : x ∈ sortBy newerThan (dupGroup files (dupKey f)) := hperm.mem_iff.mpr hx
    rw [hcons] at hx'
    rcases List.mem_cons.mp hx' with rfl | hx'
    · exact Nat.le_refl _
    · exact hrle x hx'
  have hft : timeOf f < timeOf newest := Nat.lt_of_lt_of_le hmt (hmax m hmg)
  have hfnew : f ≠ newest := fun h => by subst h; exact Nat.lt_irrefl _ hft
  have hfs : f ∈ rest := by
    have hx : f ∈ sortBy newerThan (dupGroup files (dupKey f)) := hperm.mem_iff.mpr hfg
    rw [hcons] at hx
    rcases List.mem_cons.mp hx with h | h
    · exact absurd h hfnew
    · exact h
  have hrperm : rest.Perm ((dupGroup files (dupKey f)).erase newest) := by
    have h1 : (newest :: rest).Perm (dupGroup files (dupKey f)) := hcons ▸ hperm
    have h2 := List.perm_cons_erase hnmem
    exact (h1.trans h2).cons_inv
  have hemit : emitForKey files (dupKey f) = rest.map (mkDupSugg newest) := by
    unfold emitForKey
    rw [if_neg (by omega : ¬(dupGroup files (dupKey f)).length < 2)]
    rw [hcons]
    rfl
  have hmem8 : mkDupSugg newest f ∈ rule8 files := by
    unfold rule8
    apply List.mem_flatMap.mpr
    refine ⟨dupKey f, ?_, ?_⟩
    · unfold dupKeys
      apply mem_dedupStrings
      refine List.mem_map.mpr ⟨f, ?_, rfl⟩
      exact (List.mem_filter.mp hfg).1
    · rw [hemit]
      exact List.mem_map.mpr ⟨f, hfs, rfl⟩
  exact ⟨newest, hnmem, hmax, hft, rest, hcons, hrperm, hemit, hfs, hmem8, rfl, rfl, rfl⟩

theorem rule8_duplicate_groups_witness :
    (∃ newest ∈ dupGroup [janRow, juneRow] (dupKey janRow),
      (∀ x ∈ dupGroup [janRow, juneRow] (dupKey janRow), timeOf x ≤ timeOf newest) ∧
      timeOf janRow < timeOf newest ∧
      ∃ rest,
        sortBy newerThan (dupGroup [janRow, juneRow] (dupKey janRow)) = newest :: rest ∧
        rest.Perm ((dupGroup [janRow, juneRow] (dupKey janRow)).erase newest) ∧
        emitForKey [janRow, juneRow] (dupKey janRow) = rest.map (mkDupSugg newest) ∧
        janRow ∈ rest ∧
        mkDupSugg newest janRow ∈ rule8 [janRow, juneRow] ∧
        (mkDupSugg newest janRow).category = SgCategory.delete ∧
        (mkDupSugg newest janRow).severity = SgSeverity.high ∧
        (mkDupSugg newest janRow).confidence = 85) ∧
    rule8 [janRow, juneRow] = [mkDupSugg juneRow janRow] :=
  ⟨rule8_duplicate_groups [janRow, juneRow] janRow (by decide) (by decide)
      ⟨juneRow, by decide, by decide⟩,
    by decide⟩
